import Mathlib

/-!
Verification development for the psrqpy catalogue parser and condition
engine (`src/psrqpy/utils.py`).

The embedding models:
* `get_catalogue` (utils.py lines 89-235): record tokenizer, value/error/
  reference decoder, table assembler, derived-field enricher;
* `LOGEXPRS` and `condition` (utils.py lines 608-794): expression tokenizer,
  predicate rewriter, boolean-mask fast path, and the generic evaluator.

Python floats are idealised as exact rationals (`ℚ`).  All rational values
are built through `mkRat`, and string manipulation is done on `String.data`
character lists, so that every definition evaluates inside the kernel.
External collaborators that the source calls but whose code is not part of
this repository (astropy's `SkyCoord` sexagesimal conversion, the pandas
`DataFrame.query` engine) are modelled from the specification; their
definitions carry a doc comment starting with "Modelled from the spec:".
-/

deriving instance DecidableEq for Except

namespace Psrqpy

/-! ### Rational helpers

Canonical rationals are produced with `mkRat` so that kernel reduction
works; bridge lemmas below relate them to the ordinary `ℚ` operations. -/

/-- Sum of two rationals, computed through `mkRat`. -/
def qadd (a b : ℚ) : ℚ :=
  mkRat (a.num * (b.den : ℤ) + b.num * (a.den : ℤ)) (a.den * b.den)

/-- Product of two rationals, computed through `mkRat`. -/
def qmul (a b : ℚ) : ℚ :=
  mkRat (a.num * b.num) (a.den * b.den)

/-- Negation of a rational, computed through `mkRat`. -/
def qneg (a : ℚ) : ℚ := mkRat (-a.num) a.den

/-- Quotient of two rationals, computed through `mkRat`. -/
def qdiv (a b : ℚ) : ℚ :=
  if b.num < 0 then mkRat (-(a.num * (b.den : ℤ))) (a.den * b.num.natAbs)
  else mkRat (a.num * (b.den : ℤ)) (a.den * b.num.natAbs)

/-- The rational `10 ^ z` for an integer exponent `z`. -/
def spow10 : ℤ → ℚ
  | .ofNat k => mkRat ((10 : ℤ) ^ k) 1
  | .negSucc k => mkRat 1 ((10 : ℕ) ^ (k + 1))

/-- The rational `10 ^ k` for a natural exponent `k`. -/
def npow10 (k : ℕ) : ℚ := mkRat ((10 : ℤ) ^ k) 1

lemma qadd_eq (a b : ℚ) : qadd a b = a + b := by
  have hden1 : ((a.den : ℤ)) ≠ 0 := by exact_mod_cast a.den_nz
  have hden2 : ((b.den : ℤ)) ≠ 0 := by exact_mod_cast b.den_nz
  have hcast : ((a.den * b.den : ℕ) : ℤ) = (a.den : ℤ) * (b.den : ℤ) := by
    push_cast
    ring
  rw [qadd, Rat.mkRat_eq_divInt, hcast]
  conv_rhs => rw [← Rat.num_divInt_den a, ← Rat.num_divInt_den b]
  rw [Rat.divInt_add_divInt _ _ hden1 hden2]

lemma qmul_eq (a b : ℚ) : qmul a b = a * b := (Rat.mul_eq_mkRat a b).symm

lemma qneg_eq (a : ℚ) : qneg a = -a := by
  rw [qneg, Rat.mkRat_eq_divInt, ← Rat.neg_def]

lemma div_num_den (a b : ℚ) :
    a / b = ((a.num : ℚ) * (b.den : ℚ)) / ((a.den : ℚ) * (b.num : ℚ)) := by
  conv_lhs => rw [← Rat.num_divInt_den a, ← Rat.num_divInt_den b]
  rw [Rat.divInt_div_divInt, Rat.divInt_eq_div]
  push_cast
  ring_nf

lemma qdiv_eq (a b : ℚ) : qdiv a b = a / b := by
  rw [qdiv, div_num_den]
  split_ifs with hneg
  · have h1 : ((b.num.natAbs : ℤ)) = -b.num := by
      omega
    have h2 : ((b.num.natAbs : ℕ) : ℚ) = -(b.num : ℚ) := by
      rw [← @Int.cast_natCast ℚ _ b.num.natAbs, h1, Int.cast_neg]
    have hdQ : ((a.den * b.num.natAbs : ℕ) : ℚ) = (a.den : ℚ) * (-(b.num : ℚ)) := by
      calc ((a.den * b.num.natAbs : ℕ) : ℚ)
          = (a.den : ℚ) * ((b.num.natAbs : ℕ) : ℚ) := by push_cast; ring
        _ = (a.den : ℚ) * (-(b.num : ℚ)) := by rw [h2]
    have hnQ : ((-(a.num * (b.den : ℤ)) : ℤ) : ℚ) = -((a.num : ℚ) * (b.den : ℚ)) := by
      push_cast
      ring
    rw [Rat.mkRat_eq_div, hnQ, hdQ, mul_neg, neg_div_neg_eq]
  · have hge : 0 ≤ b.num := le_of_not_lt hneg
    have h1 : ((b.num.natAbs : ℤ)) = b.num := Int.natAbs_of_nonneg hge
    have h2 : ((b.num.natAbs : ℕ) : ℚ) = (b.num : ℚ) := by
      rw [← @Int.cast_natCast ℚ _ b.num.natAbs, h1]
    have hdQ : ((a.den * b.num.natAbs : ℕ) : ℚ) = (a.den : ℚ) * ((b.num : ℚ)) := by
      calc ((a.den * b.num.natAbs : ℕ) : ℚ)
          = (a.den : ℚ) * ((b.num.natAbs : ℕ) : ℚ) := by push_cast; ring
        _ = (a.den : ℚ) * ((b.num : ℚ)) := by rw [h2]
    have hnQ : (((a.num * (b.den : ℤ)) : ℤ) : ℚ) = (a.num : ℚ) * (b.den : ℚ) := by
      push_cast
      ring
    rw [Rat.mkRat_eq_div, hnQ, hdQ]

lemma npow10_eq (k : ℕ) : npow10 k = (10 : ℚ) ^ k := by
  rw [npow10, Rat.mkRat_one]
  push_cast
  ring

lemma spow10_eq (z : ℤ) : spow10 z = (10 : ℚ) ^ z := by
  cases z with
  | ofNat k =>
    rw [spow10, Rat.mkRat_one]
    rw [show (Int.ofNat k) = (k : ℤ) from rfl, zpow_natCast]
    push_cast
    ring
  | negSucc k =>
    rw [spow10, Rat.mkRat_eq_div, zpow_negSucc]
    rw [Int.cast_one, one_div]
    congr 1
    push_cast
    ring

/-! ### Character-list string utilities

The Python code uses `str.split`, `str.split(':')`, `re.split`, `str.strip`,
`str.upper`, `float(...)` and `int(...)`.  These are modelled directly on
character lists so that everything reduces in the kernel. -/

/-- Split a character list at every character satisfying `p`, keeping empty
pieces (the behaviour of `re.split` and `str.split(sep)`). -/
def charSplit (p : Char → Bool) : List Char → List (List Char)
  | [] => [[]]
  | c :: cs =>
    if p c then [] :: charSplit p cs
    else
      match charSplit p cs with
      | g :: gs => (c :: g) :: gs
      | [] => [[c]]

/-- First character of a string, if any (Python `s[0]`). -/
def firstChar (s : String) : Option Char := s.data.head?

/-- Python `str.split()` with no argument: split on whitespace runs and drop
empty tokens. -/
def splitWs (s : String) : List String :=
  ((charSplit (fun c => c.isWhitespace) s.data).map String.mk).filter
    (fun t => t ≠ "")

/-- Python `str.upper()`. -/
def upperStr (s : String) : String := String.mk (s.data.map Char.toUpper)

/-- Numeric value of a list of decimal digit characters. -/
def digitsVal (ds : List Char) : ℕ :=
  ds.foldl (fun a c => 10 * a + (c.toNat - 48)) 0

/-- Read an optional leading sign; returns (isNegative, rest). -/
def readSign : List Char → Bool × List Char
  | '-' :: t => (true, t)
  | '+' :: t => (false, t)
  | t => (false, t)

/-- Apply a negativity flag to a natural number, yielding an integer. -/
def applySign (neg : Bool) (n : ℕ) : ℤ := if neg then -(n : ℤ) else (n : ℤ)

/-- Longest-munch parse of a decimal literal with optional sign, fraction and
exponent from the front of a character list; returns the exact rational
value together with the unconsumed rest.  An `e`/`E` is only consumed when
followed by a well-formed exponent. -/
def numCore (cs : List Char) : Option (ℚ × List Char) :=
  let sr := readSign cs
  let ip := sr.2.takeWhile Char.isDigit
  let r1 := sr.2.dropWhile Char.isDigit
  let fpr : List Char × List Char :=
    match r1 with
    | '.' :: t => (t.takeWhile Char.isDigit, t.dropWhile Char.isDigit)
    | _ => ([], r1)
  if ip.isEmpty && fpr.1.isEmpty then none
  else
    let mant : ℚ :=
      mkRat (applySign sr.1 (digitsVal (ip ++ fpr.1))) ((10 : ℕ) ^ fpr.1.length)
    match fpr.2 with
    | 'e' :: t =>
      let es := readSign t
      let ed := es.2.takeWhile Char.isDigit
      if ed.isEmpty then some (mant, 'e' :: t)
      else some (qmul mant (spow10 (applySign es.1 (digitsVal ed))),
                 es.2.dropWhile Char.isDigit)
    | 'E' :: t =>
      let es := readSign t
      let ed := es.2.takeWhile Char.isDigit
      if ed.isEmpty then some (mant, 'E' :: t)
      else some (qmul mant (spow10 (applySign es.1 (digitsVal ed))),
                 es.2.dropWhile Char.isDigit)
    | r => some (mant, r)

/-- Model of Python `float(tok)` on a whitespace-free token: the exact
rational value of a decimal literal (optional sign, decimal point, `e`/`E`
exponent), or `none` when `float` would raise `ValueError`.  The special
spellings `inf`/`nan` and digit-group underscores are not part of the
catalogue format and are modelled as failures. -/
def pyFloat? (s : String) : Option ℚ :=
  match numCore s.data with
  | some (q, []) => some q
  | _ => none

/-- Model of Python `int(tok)`: optional sign followed by one or more
decimal digits. -/
def pyInt? (s : String) : Option ℤ :=
  let sr := readSign s.data
  if sr.2 ≠ [] && sr.2.all Char.isDigit then
    some (applySign sr.1 (digitsVal sr.2))
  else none

/-! ### Association lists

Python dictionaries (`psrlist[-1]`, `formats`) are modelled as ordered
association lists: assignment updates an existing key in place and appends
a fresh key at the end, which matches `dict` insertion-order semantics. -/

/-- Look up a key in an association list (first match). -/
def getA {α : Type} : List (String × α) → String → Option α
  | [], _ => none
  | (k', v) :: r, k => if k' = k then some v else getA r k

/-- Python `d[k] = v`: replace in place, or append a fresh key. -/
def setA {α : Type} : List (String × α) → String → α → List (String × α)
  | [], k, v => [(k, v)]
  | (k', v') :: r, k, v =>
    if k' = k then (k, v) :: r else (k', v') :: setA r k v

/-! ### Catalogue data model (`get_catalogue`, utils.py lines 89-235) -/

/-- Column type registered in `formats` (utils.py lines 114, 118 etc.). -/
inductive FType
  | float64
  | unicode
deriving DecidableEq

/-- A decoded field value: Python float (exact rational), string, or `None`. -/
inductive Value
  | num (q : ℚ)
  | str (s : String)
  | null
deriving DecidableEq

/-- One catalogue record: the insertion-ordered dictionary for one pulsar. -/
abbrev Record := List (String × Value)

/-- The global `formats` registry: field name to column type. -/
abbrev Formats := List (String × FType)

/-- Uncaught Python exceptions the loader can raise: `IndexError` from
subscripting a too-short token list, `ValueError` from `float`/`int`
conversions outside a `try` block (including the explicit `raise` at
utils.py line 137). -/
inductive CatErr
  | indexError
  | valueError
deriving DecidableEq

/-- `formats[k] = t` guarded by `if k not in formats.keys()` (first-sight
wins, utils.py lines 113-114). -/
def addFmt (f : Formats) (k : String) (t : FType) : Formats :=
  if (getA f k).isSome then f else f ++ [(k, t)]

/-- Parser state: the record currently being filled (`psrlist[-1]`), the
closed records in reverse order, and the `formats` registry. -/
structure PState where
  cur : Record
  closedRev : List Record
  formats : Formats
deriving DecidableEq

/-- `re.split('e|E|d|D', val)` (utils.py line 144). -/
def splitExpChars (s : String) : List String :=
  (charSplit (fun c => c = 'e' ∨ c = 'E' ∨ c = 'd' ∨ c = 'D') s.data).map
    String.mk

/-- Membership of a character in a character list (Python `'.' in s`). -/
def containsCh (c : Char) : List Char → Bool
  | [] => false
  | x :: xs => x = c || containsCh c xs

/-- Index of the first occurrence of a character (Python `s.find(c)`; only
used under a membership guard, so the absent case is never reached). -/
def findIdxCh (c : Char) : List Char → ℕ
  | [] => 0
  | x :: xs => if x = c then 0 else findIdxCh c xs + 1

/-- The decimal-point factor `10 ** (len(valsplit[0]) - dpidx - 1)` applied
when the mantissa contains a point (utils.py lines 149-151). -/
def dpFactor (m : String) : ℚ :=
  if containsCh '.' m.data then
    npow10 (m.data.length - findIdxCh '.' m.data - 1)
  else (1 : ℚ)

/-- The `scalefac` computation of utils.py lines 139-151: absolute errors
(leading minus or containing a point) give factor 1; otherwise the value is
split on exponent letters, a present exponent contributes `10 ** (-exp)`,
and digits after the decimal point of the mantissa contribute
`10 ** (len - dpidx - 1)`.  A non-integer exponent field makes `int` raise. -/
def scalefacOf (val errTok : String) : Except CatErr ℚ :=
  if firstChar errTok = some '-' ∨ errTok.data.contains '.' then .ok 1
  else
    match splitExpChars val with
    | [m, ex] =>
      match pyInt? ex with
      | none => .error .valueError
      | some k => .ok (qmul (spow10 (-k)) (dpFactor m))
    | l => .ok (dpFactor (l.headD ""))

/-- `dataline[1].split(':')[-1]` (utils.py line 132): the post-colon part
of the value token, to account for RA and DEC strings. -/
def postColon (s : String) : String :=
  ((charSplit (fun c => c = ':') s.data).map String.mk).getLastD ""

/-- Decoding of an uncertainty token (utils.py lines 128-154): take the
post-colon part of the value token, require it to convert to a float
(else the explicit `ValueError` of line 137), compute `scalefac`, and
store `float(err) / scalefac`. -/
def errEntry (valTok errTok : String) (qe : ℚ) : Except CatErr ℚ :=
  let val := postColon valTok
  match pyFloat? val with
  | none => .error .valueError
  | some _ =>
    match scalefacOf val errTok with
    | .error e => .error e
    | .ok sf => .ok (qdiv qe sf)

/-- Set a field on the current record and register its type (the paired
assignments of utils.py lines 112-118, 154-157, 160-163, 167-169). -/
def addField (st : PState) (k : String) (v : Value) (t : FType) : PState :=
  { st with cur := setA st.cur k v, formats := addFmt st.formats k t }

/-- The value decoding of utils.py lines 111-118: try `float(dataline[1])`,
store a numeric value on success and the raw string on `ValueError`, and
register the field's type first-sight-wins. -/
def dataStep1 (st : PState) (w0 v1 : String) : PState :=
  match pyFloat? v1 with
  | some q => addField st w0 (.num q) .float64
  | none => addField st w0 (.str v1) .unicode

/-- The third-token decoding of utils.py lines 120-163: a float-convertible
token becomes the `_ERR` entry via the uncertainty decoding, anything else
becomes the `_REF` entry. -/
def dataStep2 (st1 : PState) (w0 v1 v2 : String) : Except CatErr PState :=
  match pyFloat? v2 with
  | some q2 =>
    match errEntry v1 v2 q2 with
    | .error e => .error e
    | .ok er => .ok (addField st1 (w0 ++ "_ERR") (.num er) .float64)
  | none => .ok (addField st1 (w0 ++ "_REF") (.str v2) .unicode)

/-- The fourth-token decoding of utils.py lines 165-169: always a
reference, overwriting any `_REF` entry set by the previous step. -/
def dataStep3 (st2 : PState) (w0 v3 : String) : PState :=
  addField st2 (w0 ++ "_REF") (.str v3) .unicode

/-- Processing of one raw catalogue line (utils.py lines 97-169): split on
whitespace; `[]` means the `dataline[0]` subscript raises; comment lines
are skipped; separator lines close the current record; data lines decode
a value, an optional error-or-reference token, and an optional reference. -/
def procLine (st : PState) (line : String) : Except CatErr PState :=
  match splitWs line with
  | [] => .error .indexError
  | w0 :: rest =>
    match firstChar w0 with
    | none => .error .indexError
    | some c0 =>
      if c0 = '#' then .ok st
      else if c0 = '@' then
        .ok { cur := [], closedRev := st.cur :: st.closedRev,
              formats := st.formats }
      else
        match rest with
        | [] => .error .indexError
        | v1 :: rest2 =>
          match rest2 with
          | [] => .ok (dataStep1 st w0 v1)
          | v2 :: rest3 =>
            match dataStep2 (dataStep1 st w0 v1) w0 v1 v2 with
            | .error e => .error e
            | .ok st2 =>
              match rest3 with
              | v3 :: _ => .ok (dataStep3 st2 w0 v3)
              | [] => .ok st2

/-- The initial state: `psrlist = [{}]`, `formats = {}` (lines 93-94). -/
def initState : PState := ⟨[], [], []⟩

/-- The main line loop of `get_catalogue`. -/
def procLines (lines : List String) : Except CatErr PState :=
  lines.foldlM procLine initState

/-- The Table Assembler output: the record list after `del psrlist[-1]`
(utils.py line 171), in file order. -/
def parseCat (lines : List String) : Except CatErr (List Record) :=
  match procLines lines with
  | .error e => .error e
  | .ok st => .ok st.closedRev.reverse

/-! ### Derived-field enricher (utils.py lines 173-212)

The sexagesimal conversion itself is done by astropy's `SkyCoord`, which is
not part of this repository; it is modelled from the specification.  The
*absence of any exception handling* around the call is faithful to the
source: a failing conversion propagates and aborts the load. -/

/-- True when a rational is nonnegative. -/
def qnonneg (q : ℚ) : Bool := decide (0 ≤ q.num)

/-- Apply an optional leading minus sign. -/
def applyNeg (b : Bool) (q : ℚ) : ℚ := if b then qneg q else q

/-- Modelled from the spec: the sexagesimal-string parsing performed inside
astropy's `SkyCoord` (absent from `src/`): an optional sign followed by one
to three nonnegative colon-separated components `a:b:c` meaning
`a + b/60 + c/3600`; anything else is malformed and fails. -/
def sexaParse (s : String) : Option ℚ :=
  let sr : Bool × List Char :=
    match s.data with
    | '-' :: t => (true, t)
    | t => (false, t)
  let parts := (charSplit (fun c => c = ':') sr.2).map String.mk
  match parts.mapM pyFloat? with
  | some [a] => if qnonneg a then some (applyNeg sr.1 a) else none
  | some [a, b] =>
    if qnonneg a && qnonneg b then
      some (applyNeg sr.1 (qadd a (qdiv b (mkRat 60 1))))
    else none
  | some [a, b, c] =>
    if qnonneg a && qnonneg b && qnonneg c then
      some (applyNeg sr.1
        (qadd a (qadd (qdiv b (mkRat 60 1)) (qdiv c (mkRat 3600 1)))))
    else none
  | _ => none

/-- Modelled from the spec: right ascension in hour angle converted to
degrees (`coord.ra.deg`); a numeric value is taken as hours directly, a
string is parsed as sexagesimal, anything else is malformed. -/
def raToDeg : Value → Option ℚ
  | .num q => some (qmul (mkRat 15 1) q)
  | .str s => (sexaParse s).map (fun q => qmul (mkRat 15 1) q)
  | .null => none

/-- Modelled from the spec: declination in degrees (`coord.dec.deg`). -/
def decToDeg : Value → Option ℚ
  | .num q => some q
  | .str s => sexaParse s
  | .null => none

/-- The `JNAME`/`NAME`/`BNAME` alias assignments of utils.py lines 184-195,
returning the updated record and the record's contribution to the `jname`
and `bname` flags. -/
def aliasSteps (r1 : Record) : Record × Bool × Bool :=
  let p2 : Record × Bool :=
    match getA r1 "PSRJ" with
    | some v => (setA (setA r1 "JNAME" v) "NAME" v, true)
    | none => (r1, false)
  let p3 : Record × Bool :=
    match getA p2.1 "PSRB" with
    | some v =>
      let rb := setA p2.1 "BNAME" v
      (if (getA rb "NAME").isSome then rb else setA rb "NAME" v, true)
    | none => (p2.1, false)
  (p3.1, p2.2, p3.2)

/-- Enrichment of one record (utils.py lines 177-195): decimal-degree
coordinates when both `RAJ` and `DECJ` are present (no exception handler:
a malformed pair aborts), then the `JNAME`/`NAME`/`BNAME` aliases.
Returns the enriched record and its contribution to the `radec`, `jname`,
`bname` flags. -/
def enrichRec (r : Record) : Except CatErr (Record × Bool × Bool × Bool) :=
  if (getA r "RAJ").isSome && (getA r "DECJ").isSome then
    match raToDeg ((getA r "RAJ").getD .null),
          decToDeg ((getA r "DECJ").getD .null) with
    | some ra, some dec =>
      let a := aliasSteps (setA (setA r "RAJD" (.num ra)) "DECJD" (.num dec))
      .ok (a.1, true, a.2.1, a.2.2)
    | _, _ => .error .valueError
  else
    let a := aliasSteps r
    .ok (a.1, false, a.2.1, a.2.2)

/-- Enrichment of all records in order, accumulating the three flags; the
first failing record aborts the whole loop, as in the source. -/
def enrichAll : List Record → Except CatErr (List Record × Bool × Bool × Bool)
  | [] => .ok ([], false, false, false)
  | r :: rs =>
    match enrichRec r with
    | .error e => .error e
    | .ok (r', a, b, c) =>
      match enrichAll rs with
      | .error e => .error e
      | .ok (rs', a', b', c') => .ok (r' :: rs', a || a', b || b', c || c')

/-- The flag-guarded `formats` updates of utils.py lines 197-206 (direct
dictionary assignment, not first-sight-guarded). -/
def enrichFormats (f : Formats) (radec jn bn : Bool) : Formats :=
  let f1 := if radec then setA (setA f "RAJD" .float64) "DECJD" .float64 else f
  let f2 := if jn then setA f1 "JNAME" .unicode else f1
  let f3 := if bn then setA f2 "BNAME" .unicode else f2
  if jn || bn then setA f3 "NAME" .unicode else f3

/-- The fill loop of utils.py lines 209-212: every registered column missing
from a record is appended with a `None` value. -/
def fillRec (f : Formats) (r : Record) : Record :=
  f.foldl
    (fun acc kt => if (getA acc kt.1).isSome then acc else acc ++ [(kt.1, Value.null)])
    r

/-- The whole in-scope pipeline of `get_catalogue` on the decoded lines of
the database file: parse, assemble, enrich, register derived formats, fill.
Returns the final records together with the column registry. -/
def get_catalogue (lines : List String) :
    Except CatErr (List Record × Formats) :=
  match procLines lines with
  | .error e => .error e
  | .ok st =>
    match enrichAll st.closedRev.reverse with
    | .error e => .error e
    | .ok (recs, radec, jn, bn) =>
      let fmts := enrichFormats st.formats radec jn bn
      .ok (recs.map (fillRec fmts), fmts)

/-! ### Expression tokenizer (`LOGEXPRS` and `re.split`, utils.py 608-698)

`re.split` with a single capturing group alternation scans left to right;
at each position the first alternative that matches wins, keyword
alternatives are guarded by word boundaries (`\b`), and the pieces between
matches are kept together with the captured delimiters.  The resulting
list is then stripped and cleared of empty entries (utils.py line 698). -/

/-- The ordered alternation of `LOGEXPRS` (utils.py lines 608-635): a flag
marking word-boundary-guarded keywords, and the raw text. -/
def LOGEXPRS : List (Bool × String) :=
  [(true, "AND"), (true, "and"), (false, "&&"),
   (true, "OR"), (true, "or"), (false, "||"),
   (false, "!="), (false, "=="), (false, "<="), (false, ">="),
   (false, "<"), (false, ">"), (false, "("), (false, ")"),
   (true, "NOT"), (true, "not"), (false, "!"), (false, "~"),
   (true, "ASSOC"), (true, "assoc"), (true, "TYPE"), (true, "type"),
   (true, "BINCOMP"), (true, "bincomp"), (true, "EXIST"), (true, "exist"),
   (true, "ERROR"), (true, "error")]

/-- Regex word characters (`\w`): letters, digits, underscore. -/
def isWordChar (c : Char) : Bool := c.isAlphanum || c = '_'

/-- Word boundary on the left: start of string or a non-word character. -/
def wbLeft : Option Char → Bool
  | none => true
  | some c => !isWordChar c

/-- Try to strip `pat` from the front of `cs`. -/
def dropStart : List Char → List Char → Option (List Char)
  | [], cs => some cs
  | p :: ps, c :: cs => if c = p then dropStart ps cs else none
  | _ :: _, [] => none

/-- Try one `LOGEXPRS` alternative at the current position (`prev` is the
previous character, for the word-boundary checks). -/
def matchPat (prev : Option Char) (cs : List Char) (pat : Bool × String) :
    Option (String × List Char) :=
  match dropStart pat.2.data cs with
  | none => none
  | some rest =>
    if pat.1 then
      if wbLeft prev && (match rest.head? with
                         | none => true
                         | some c => !isWordChar c) then
        some (pat.2, rest)
      else none
    else some (pat.2, rest)

/-- The first `LOGEXPRS` alternative matching at the current position. -/
def matchAt (prev : Option Char) (cs : List Char) :
    Option (String × List Char) :=
  LOGEXPRS.findSome? (matchPat prev cs)

/-- The `re.split` scan: pieces between matches are interleaved with the
captured delimiter tokens.  `fuel` bounds the recursion (each step consumes
at least one character). -/
def scanTok : ℕ → Option Char → List Char → List Char → List String →
    List String
  | _, _, [], run, acc => (String.mk run.reverse :: acc).reverse
  | 0, _, _ :: _, run, acc => (String.mk run.reverse :: acc).reverse
  | f + 1, prev, c :: cs, run, acc =>
    match matchAt prev (c :: cs) with
    | some (tok, rest) =>
      scanTok f tok.data.getLast? rest [] (tok :: String.mk run.reverse :: acc)
    | none => scanTok f (some c) cs (c :: run) acc

/-- Python `str.strip()`: drop leading and trailing whitespace. -/
def stripStr (s : String) : String :=
  String.mk (((s.data.dropWhile Char.isWhitespace).reverse.dropWhile
    Char.isWhitespace).reverse)

/-- The full expression tokenizer (utils.py lines 696-698):
`re.compile(LOGEXPRS).split(expression)`, then strip each token and drop
the empty ones. -/
def tokenize (s : String) : List String :=
  ((scanTok s.data.length none s.data [] []).map stripStr).filter
    (fun t => t ≠ "")

/-! ### Predicate rewriter (utils.py lines 708-777) -/

/-- The five predicate keywords (utils.py line 708). -/
def matchTypes : List String := ["ASSOC", "TYPE", "BINCOMP", "EXIST", "ERROR"]

/-- Result of the token-rewriting loop: the new token list plus the flag
recording that an `EXIST` on a missing column replaced the table by an
empty one and broke out of the loop, or an uncaught `IndexError` from the
`tokens[i+3]` subscript (utils.py line 727). -/
inductive RwRes
  | ok (newtokens : List String) (emptied : Bool)
  | indexError
deriving DecidableEq

/-- The tokens substituted for a recognised predicate other than `EXIST`
(utils.py lines 730-772): an empty list models warn-and-drop. -/
def predSub (cols : List String) (exactM : Bool) (kwUp arg : String) :
    List String :=
  if kwUp = "ASSOC" then
    if !cols.contains "ASSOC" then []
    else if exactM then ["(ASSOC == \"" ++ arg ++ "\")"]
    else ["(@assoc)"]
  else if kwUp = "TYPE" then
    if upperStr arg = "BINARY" then
      if !cols.contains "BINARY" then [] else ["(BINARY != \"None\")"]
    else if !cols.contains "TYPE" then []
    else if exactM then ["(TYPE == \"" ++ arg ++ "\")"]
    else ["(@ttype)"]
  else if kwUp = "BINCOMP" then
    if !cols.contains "BINCOMP" then []
    else if exactM then ["(BINCOMP == \"" ++ arg ++ "\")"]
    else ["(@bincomp)"]
  else if kwUp = "ERROR" then
    if !cols.contains (arg ++ "_ERR") then []
    else [arg ++ "_ERR"]
  else []

/-- The main token loop of `condition` (utils.py lines 711-777), written on
the suffix of unprocessed tokens.  The bounds test `ntokens < i + 3`
compares against the *fourth* following index, so a keyword followed by
`'('` and exactly one further token reaches the `tokens[i+3]` subscript out
of bounds.  After a recognised or malformed predicate the cursor advances
by 3 in total (`i += 2` plus the loop's `i += 1`), so the suffix continues
at the token that was matched as `')'`.  `fuel` bounds the recursion. -/
def rwLoopF (cols : List String) (exactM : Bool) :
    ℕ → List String → List String → RwRes
  | _, [], acc => .ok acc false
  | 0, _ :: _, acc => .ok acc false
  | f + 1, t :: rest, acc =>
    if t = "&&" ∨ t = "AND" then rwLoopF cols exactM f rest (acc ++ ["&"])
    else if t = "||" ∨ t = "OR" then rwLoopF cols exactM f rest (acc ++ ["|"])
    else if t = "!" ∨ t = "NOT" ∨ t = "not" then
      rwLoopF cols exactM f rest (acc ++ ["~"])
    else if matchTypes.contains (upperStr t) then
      match rest with
      | [] => .ok acc false
      | [_] => .ok acc false
      | [r0, _] => if r0 = "(" then .indexError else .ok acc false
      | r0 :: r1 :: r2 :: rest3 =>
        if r0 ≠ "(" ∨ r2 ≠ ")" then
          rwLoopF cols exactM f (r2 :: rest3) acc
        else if upperStr t = "EXIST" then
          if !cols.contains r1 then .ok acc true
          else rwLoopF cols exactM f (r2 :: rest3)
            (acc ++ ["(" ++ r1 ++ " != None)"])
        else rwLoopF cols exactM f (r2 :: rest3)
          (acc ++ predSub cols exactM (upperStr t) r1)
    else rwLoopF cols exactM f rest (acc ++ [t])

/-- The rewriting loop run on a whole token list. -/
def rwTokens (cols : List String) (exactM : Bool) (tokens : List String) :
    RwRes :=
  rwLoopF cols exactM tokens.length tokens []

/-! ### Generic evaluator

The rewritten tokens are concatenated with `''.join(newtokens)` and handed
to `pandas.DataFrame.query` (utils.py line 781).  The pandas engine is not
code of this repository; it is modelled from the specification (§4.7): the
expression is re-lexed, parsed with the grammar of column references,
literals, comparisons, `~`/`&`/`|` and parentheses, and evaluated per row;
an expression that does not parse (including an empty one) is a fatal
parse error. -/

/-- Errors of the condition engine: the two pre-checks of the boolean-mask
fast path, the uncaught rewriter `IndexError`, and evaluator failures. -/
inductive CondErr
  | typeError
  | lengthError
  | indexError
  | parseError
  | evalError
deriving DecidableEq

/-- Modelled from the spec: lexical tokens of the generic boolean engine. -/
inductive LTok
  | lp
  | rp
  | amp
  | bar
  | tilde
  | ceq
  | cne
  | cle
  | cge
  | clt
  | cgt
  | ident (s : String)
  | num (q : ℚ)
  | strlit (s : String)
  | atref (s : String)
deriving DecidableEq

/-- Read a double-quoted string literal (after the opening quote). -/
def readQuoted (cs : List Char) : Option (String × List Char) :=
  match cs.dropWhile (fun c => c ≠ '"') with
  | '"' :: rest => some (String.mk (cs.takeWhile (fun c => c ≠ '"')), rest)
  | _ => none

/-- Modelled from the spec: the lexer of the generic boolean engine applied
to the joined expression string. -/
def lexQ : ℕ → List Char → Option (List LTok)
  | _, [] => some []
  | 0, _ :: _ => none
  | f + 1, cs =>
    match cs with
    | [] => some []
    | ' ' :: r => lexQ f r
    | '(' :: r => (lexQ f r).map (LTok.lp :: ·)
    | ')' :: r => (lexQ f r).map (LTok.rp :: ·)
    | '&' :: r => (lexQ f r).map (LTok.amp :: ·)
    | '|' :: r => (lexQ f r).map (LTok.bar :: ·)
    | '~' :: r => (lexQ f r).map (LTok.tilde :: ·)
    | '=' :: '=' :: r => (lexQ f r).map (LTok.ceq :: ·)
    | '!' :: '=' :: r => (lexQ f r).map (LTok.cne :: ·)
    | '<' :: '=' :: r => (lexQ f r).map (LTok.cle :: ·)
    | '>' :: '=' :: r => (lexQ f r).map (LTok.cge :: ·)
    | '<' :: r => (lexQ f r).map (LTok.clt :: ·)
    | '>' :: r => (lexQ f r).map (LTok.cgt :: ·)
    | '"' :: r =>
      match readQuoted r with
      | some (s, rest) => (lexQ f rest).map (LTok.strlit s :: ·)
      | none => none
    | '@' :: r =>
      let nm := r.takeWhile isWordChar
      if nm.isEmpty then none
      else (lexQ f (r.dropWhile isWordChar)).map
        (LTok.atref (String.mk nm) :: ·)
    | c :: r =>
      if c.isDigit || c = '-' || c = '.' then
        match numCore (c :: r) with
        | some (q, rest) => (lexQ f rest).map (LTok.num q :: ·)
        | none => none
      else if c.isAlpha || c = '_' then
        let nm := (c :: r).takeWhile isWordChar
        (lexQ f ((c :: r).dropWhile isWordChar)).map
          (LTok.ident (String.mk nm) :: ·)
      else none

/-- Modelled from the spec: atoms of the generic boolean grammar. -/
inductive QAtom
  | col (s : String)
  | lit (q : ℚ)
  | strl (s : String)
  | noneA
  | atA (s : String)
deriving DecidableEq

/-- Modelled from the spec: comparison operators. -/
inductive COp
  | ceq
  | cne
  | cle
  | cge
  | clt
  | cgt
deriving DecidableEq

/-- Modelled from the spec: expressions of the generic boolean grammar. -/
inductive QExpr
  | orE (a b : QExpr)
  | andE (a b : QExpr)
  | notE (a : QExpr)
  | cmp (op : COp) (a b : QAtom)
  | atomB (a : QAtom)
deriving DecidableEq

/-- Classification of a lexical token as an atom. -/
def atomOf : LTok → Option QAtom
  | .ident s => if s = "None" then some .noneA else some (.col s)
  | .num q => some (.lit q)
  | .strlit s => some (.strl s)
  | .atref s => some (.atA s)
  | _ => none

/-- Classification of a lexical token as a comparison operator. -/
def cmpOf : LTok → Option COp
  | .ceq => some .ceq
  | .cne => some .cne
  | .cle => some .cle
  | .cge => some .cge
  | .clt => some .clt
  | .cgt => some .cgt
  | _ => none

/-- Modes of the recursive-descent routine: or-level, or-loop with the
expression parsed so far, and-level, and-loop, not-level, primary. -/
inductive PMode
  | orM
  | orL (a : QExpr)
  | andM
  | andL (a : QExpr)
  | notM
  | primM
deriving DecidableEq

/-- Modelled from the spec: recursive-descent routine of the generic
boolean grammar.  `|` binds loosest, then `&`, then `~`, then comparisons
between atoms and parenthesised subexpressions. -/
def parseQ : ℕ → PMode → List LTok → Option (QExpr × List LTok)
  | 0, _, _ => none
  | f + 1, .orM, toks =>
    match parseQ f .andM toks with
    | some (a, rest) => parseQ f (.orL a) rest
    | none => none
  | f + 1, .orL a, toks =>
    match toks with
    | .bar :: rest =>
      match parseQ f .andM rest with
      | some (b, rest2) => parseQ f (.orL (.orE a b)) rest2
      | none => none
    | _ => some (a, toks)
  | f + 1, .andM, toks =>
    match parseQ f .notM toks with
    | some (a, rest) => parseQ f (.andL a) rest
    | none => none
  | f + 1, .andL a, toks =>
    match toks with
    | .amp :: rest =>
      match parseQ f .notM rest with
      | some (b, rest2) => parseQ f (.andL (.andE a b)) rest2
      | none => none
    | _ => some (a, toks)
  | f + 1, .notM, toks =>
    match toks with
    | .tilde :: rest =>
      match parseQ f .notM rest with
      | some (a, rest2) => some (.notE a, rest2)
      | none => none
    | _ => parseQ f .primM toks
  | f + 1, .primM, toks =>
    match toks with
    | .lp :: rest =>
      match parseQ f .orM rest with
      | some (a, .rp :: rest2) => some (a, rest2)
      | _ => none
    | t :: rest =>
      match atomOf t with
      | some a =>
        match rest with
        | op :: t2 :: rest2 =>
          match cmpOf op, atomOf t2 with
          | some cop, some b => some (.cmp cop a b, rest2)
          | _, _ => some (.atomB a, rest)
        | _ => some (.atomB a, rest)
      | none => none
    | [] => none

/-- Modelled from the spec: a complete parse of the token list; leftover
tokens (for example an unbalanced closing parenthesis) are a parse error,
and so is an empty expression. -/
def parseQuery (toks : List LTok) : Option QExpr :=
  match parseQ (4 * toks.length + 4) .orM toks with
  | some (e, []) => some e
  | _ => none

/-- Equality on decoded values as the engine compares them: numbers with
numbers, strings with strings, null only equal to null. -/
def valEq : Value → Value → Bool
  | .num a, .num b => a = b
  | .str a, .str b => a = b
  | .null, .null => true
  | _, _ => false

/-- Ordering comparisons; only defined between two numbers or two strings. -/
def valLe (a b : Value) : Option Bool :=
  match a, b with
  | .num x, .num y => some (decide (x ≤ y))
  | .str x, .str y => some (decide (x ≤ y))
  | _, _ => none

/-- Strict ordering comparisons. -/
def valLt (a b : Value) : Option Bool :=
  match a, b with
  | .num x, .num y => some (decide (x < y))
  | .str x, .str y => some (decide (x < y))
  | _, _ => none

/-- Modelled from the spec: evaluate an atom against one row.  A column
reference must exist in the row; `@`-references capture Python locals that
live outside the modelled engine and therefore fail. -/
def evalAtom (r : Record) : QAtom → Except CondErr Value
  | .col s =>
    match getA r s with
    | some v => .ok v
    | none => .error .evalError
  | .lit q => .ok (.num q)
  | .strl s => .ok (.str s)
  | .noneA => .ok .null
  | .atA _ => .error .evalError

/-- Modelled from the spec: evaluate a comparison between two values. -/
def evalCmp (op : COp) (x y : Value) : Except CondErr Bool :=
  match op with
  | .ceq => .ok (valEq x y)
  | .cne => .ok (!valEq x y)
  | .cle => match valLe x y with
            | some b => .ok b
            | none => .error .evalError
  | .cge => match valLe y x with
            | some b => .ok b
            | none => .error .evalError
  | .clt => match valLt x y with
            | some b => .ok b
            | none => .error .evalError
  | .cgt => match valLt y x with
            | some b => .ok b
            | none => .error .evalError

/-- Modelled from the spec: evaluate an expression against one row; a
non-boolean term in a boolean position is an evaluation error. -/
def evalB (r : Record) : QExpr → Except CondErr Bool
  | .orE a b =>
    match evalB r a, evalB r b with
    | .ok x, .ok y => .ok (x || y)
    | .error e, _ => .error e
    | _, .error e => .error e
  | .andE a b =>
    match evalB r a, evalB r b with
    | .ok x, .ok y => .ok (x && y)
    | .error e, _ => .error e
    | _, .error e => .error e
  | .notE a =>
    match evalB r a with
    | .ok x => .ok (!x)
    | .error e => .error e
  | .cmp op a b =>
    match evalAtom r a, evalAtom r b with
    | .ok x, .ok y => evalCmp op x y
    | .error e, _ => .error e
    | _, .error e => .error e
  | .atomB _ => .error .evalError

/-- Modelled from the spec: filter the rows on which the expression holds;
any per-row evaluation failure is fatal. -/
def evalRows (rows : List Record) (e : QExpr) : Except CondErr (List Record) :=
  match rows with
  | [] => .ok []
  | r :: rs =>
    match evalB r e, evalRows rs e with
    | .ok b, .ok tl => .ok (if b then r :: tl else tl)
    | .error err, _ => .error err
    | _, .error err => .error err

/-! ### The `condition` entry points (utils.py lines 638-794) -/

/-- The boolean-mask fast path (utils.py lines 684-690): a numpy array must
be boolean-typed and of the table's length, and then selects rows by
boolean indexing before any tokenization happens. -/
def maskSelect : List Record → List Bool → List Record
  | x :: xs, b :: bs => if b then x :: maskSelect xs bs else maskSelect xs bs
  | _, _ => []

/-- `condition` applied to a numpy array `expression` (utils.py 684-690):
`dtypeBool` is whether `expression.dtype` is boolean. -/
def conditionMask (dtypeBool : Bool) (mask : List Bool) (rows : List Record) :
    Except CondErr (List Record) :=
  if !dtypeBool then .error .typeError
  else if mask.length ≠ rows.length then .error .lengthError
  else .ok (maskSelect rows mask)

/-- The mask path as the specification words it: reject a non-boolean
dtype, reject a length mismatch, otherwise keep exactly the rows at the
positions where the mask is `True`, in order. -/
def conditionMaskSpec (dtypeBool : Bool) (mask : List Bool)
    (rows : List Record) : Except CondErr (List Record) :=
  if !dtypeBool then .error .typeError
  else if mask.length ≠ rows.length then .error .lengthError
  else .ok (((rows.zip mask).filter (fun p => p.2)).map (fun p => p.1))

/-- `condition` applied to a string expression: tokenize, rewrite the
predicates against the table columns, join, and hand the expression to the
(spec-modelled) generic evaluator; an `EXIST` break empties the table
before evaluation. -/
def conditionStr (cols : List String) (rows : List Record) (exactM : Bool)
    (expr : String) : Except CondErr (List Record) :=
  let tokens := tokenize expr
  match rwTokens cols exactM tokens with
  | .indexError => .error .indexError
  | .ok newtoks emptied =>
    let joined := String.join newtoks
    let rows2 := if emptied then [] else rows
    match lexQ joined.data.length joined.data with
    | none => .error .parseError
    | some ltoks =>
      match parseQuery ltoks with
      | none => .error .parseError
      | some e => evalRows rows2 e

/-! ### General lemmas about the embedding -/

/-- Key presence in an association list. -/
def hasA {α : Type} (l : List (String × α)) (k : String) : Bool :=
  (getA l k).isSome

lemma getA_setA {α : Type} (r : List (String × α)) (k k' : String) (v : α) :
    getA (setA r k v) k' = if k = k' then some v else getA r k' := by
  induction r with
  | nil => simp [setA, getA]
  | cons a r ih =>
    obtain ⟨ka, va⟩ := a
    by_cases hak : ka = k
    · subst hak
      by_cases hkk : ka = k'
      · subst hkk
        simp [setA, getA]
      · simp [setA, getA, hkk]
    · by_cases hk : ka = k'
      · subst hk
        simp [setA, getA, hak]
        rw [if_neg (fun hkk => hak hkk.symm)]
      · simp [setA, getA, hak, hk, ih]

lemma hasA_setA {α : Type} (r : List (String × α)) (k k' : String) (v : α) :
    hasA (setA r k v) k' = (decide (k = k') || hasA r k') := by
  by_cases h : k = k'
  · simp [hasA, getA_setA, h]
  · simp [hasA, getA_setA, h]

lemma getA_append {α : Type} (f g : List (String × α)) (k : String) :
    getA (f ++ g) k = ((getA f k).rec (getA g k) (fun v => some v)) := by
  induction f with
  | nil => simp [getA]
  | cons a f ih =>
    obtain ⟨ka, va⟩ := a
    by_cases h : ka = k
    · simp [getA, h]
    · simp [getA, h, ih]

lemma hasA_append {α : Type} (f g : List (String × α)) (k : String) :
    hasA (f ++ g) k = (hasA f k || hasA g k) := by
  rw [hasA, getA_append]
  cases hf : getA f k
  · simp [hasA, hf]
  · simp [hasA, hf]

lemma hasA_addFmt (f : Formats) (k k' : String) (t : FType) :
    hasA (addFmt f k t) k' = (hasA f k' || decide (k = k')) := by
  rw [addFmt]
  by_cases hp : (getA f k).isSome
  · rw [if_pos hp]
    by_cases h : k = k'
    · subst h
      simp [hasA, hp]
    · simp [h]
  · rw [if_neg hp]
    rw [hasA_append]
    by_cases h : k = k'
    · subst h
      simp [hasA, getA]
    · simp [hasA, getA, h]

lemma hasA_addFmt_mono (f : Formats) (k k' : String) (t : FType)
    (h : hasA f k' = true) : hasA (addFmt f k t) k' = true := by
  rw [hasA_addFmt, h, Bool.true_or]

lemma hasA_setA_mono {α : Type} (r : List (String × α)) (k k' : String)
    (v : α) (h : hasA r k' = true) : hasA (setA r k v) k' = true := by
  rw [hasA_setA, h, Bool.or_true]

lemma bor_true {a b : Bool} (h : (a || b) = true) : a = true ∨ b = true := by
  cases a
  · right
    simpa using h
  · left
    rfl

/-! ### C7: the boolean-mask fast path -/

lemma maskSelect_zip (rows : List Record) (mask : List Bool) :
    maskSelect rows mask =
      ((rows.zip mask).filter (fun p => p.2)).map (fun p => p.1) := by
  induction rows generalizing mask with
  | nil => simp [maskSelect]
  | cons r rs ih =>
    cases mask with
    | nil => simp [maskSelect]
    | cons b bs =>
      cases b with
      | false => simp [maskSelect, ih]
      | true => simp [maskSelect, ih]

/-- C7: when the query expression is a numpy array, `condition` raises a
type error when the dtype is not boolean, raises a length error when the
mask length differs from the table length, and otherwise bypasses
tokenization and returns exactly the rows at the positions where the mask
is `True`: `conditionMask` coincides with the specification-side
`conditionMaskSpec` on all inputs. -/
theorem c7_boolean_mask (dtypeBool : Bool) (mask : List Bool)
    (rows : List Record) :
    conditionMask dtypeBool mask rows = conditionMaskSpec dtypeBool mask rows := by
  rw [conditionMask, conditionMaskSpec, maskSelect_zip]

/-! ### C8: tokenizer keyword case sensitivity -/

/-- C8 counterexample: the claim says every case variant of the keywords is
split out as its own token, naming `And` as an example; but the tokenizer
grammar only contains the all-uppercase and all-lowercase spellings, so
`"x And y"` stays a single token and `And` is not split out. -/
theorem c8_tokenizer_case_counterexample :
    tokenize "x And y" = ["x And y"] ∧ "And" ∉ tokenize "x And y" := by
  decide

/-- C8 (amended): the tokenizer splits the keywords `AND`, `OR`, `NOT`,
`ASSOC`, `TYPE`, `BINCOMP`, `EXIST`, `ERROR` out of the query string as
their own tokens in their all-uppercase and all-lowercase spellings only;
mixed-case variants such as `And` are not recognised. -/
theorem c8_tokenizer_case_amended :
    (["AND", "and", "OR", "or", "NOT", "not", "ASSOC", "assoc",
      "TYPE", "type", "BINCOMP", "bincomp", "EXIST", "exist",
      "ERROR", "error"].all
      (fun w => tokenize ("x " ++ w ++ " y") == ["x", w, "y"])) = true := by
  decide

/-! ### C2: predicate cursor advance -/

/-- C2 (code bug): the claim (and the spec) say a recognised predicate
consumes the keyword plus exactly the 3 tokens `( ARG )`, advancing the
cursor by 4, so that none of them is emitted verbatim.  The code instead
advances by 3 (`i += 2` then `i += 1`), so the `')'` token is reprocessed
and emitted verbatim: the docstring example `TYPE(BINARY)` rewrites to the
tokens `(BINARY != "None")`, `)`, whose concatenation is unbalanced, and
the query raises a parse error instead of selecting binary pulsars. -/
theorem c2_predicate_cursor_code_bug :
    rwTokens ["BINARY"] false (tokenize "TYPE(BINARY)") =
      .ok ["(BINARY != \"None\")", ")"] false ∧
    conditionStr ["BINARY"] [[("BINARY", Value.str "CO")]] false
      "TYPE(BINARY)" = .error .parseError := by
  decide

/-! ### C3: `EXIST` on a missing column -/

/-- C3 counterexample: the claim says the query returns a zero-row result
with a warning.  On the table with single column `F0` and the query
`F0 > 100 AND EXIST(P1)`, the rewriter breaks out mid-expression leaving
the truncated tokens `F0 > 100 &`, whose concatenation is not a valid
boolean expression, so evaluation raises a parse error instead of
returning an empty table. -/
theorem c3_exist_shortcircuit_counterexample :
    conditionStr ["F0"] [[("F0", Value.num 200)]] false
      "F0 > 100 AND EXIST(P1)" = .error .parseError := by
  decide

/-- C3 (amended): `EXIST(x)` with `x` absent from the table warns, replaces
the table by an empty one and stops token processing; the truncated prefix
expression (here `F0>100&`, or the empty expression for a standalone
`EXIST`) is not a valid boolean expression, so the query raises a parse
error rather than returning a zero-row result. -/
theorem c3_exist_shortcircuit_amended (cols : List String)
    (rows : List Record) (h : "P1" ∉ cols) :
    conditionStr cols rows false "F0 > 100 AND EXIST(P1)" = .error .parseError ∧
    conditionStr cols rows false "EXIST(P1)" = .error .parseError := by
  have htok1 : tokenize "F0 > 100 AND EXIST(P1)" =
      ["F0", ">", "100", "AND", "EXIST", "(", "P1", ")"] := by decide
  have htok2 : tokenize "EXIST(P1)" = ["EXIST", "(", "P1", ")"] := by decide
  have hrw1 : rwTokens cols false ["F0", ">", "100", "AND", "EXIST", "(", "P1", ")"] =
      .ok ["F0", ">", "100", "&"] true := by
    simp [rwTokens, rwLoopF, matchTypes, upperStr, h]
  have hrw2 : rwTokens cols false ["EXIST", "(", "P1", ")"] = .ok [] true := by
    simp [rwTokens, rwLoopF, matchTypes, upperStr, h]
  constructor
  · simp only [conditionStr, htok1, hrw1]
    rfl
  · simp only [conditionStr, htok2, hrw2]
    rfl

/-- C3 witness: the amended theorem applied to the single-column table
`F0` with no rows. -/
theorem c3_exist_shortcircuit_witness :
    conditionStr ["F0"] [] false "F0 > 100 AND EXIST(P1)" = .error .parseError ∧
    conditionStr ["F0"] [] false "EXIST(P1)" = .error .parseError :=
  c3_exist_shortcircuit_amended ["F0"] [] (by decide)

/-! ### C9: predicate keyword truncated at end of stream -/

/-- A token that is not a predicate keyword in any case variant. -/
def nonPred (t : String) : Bool := !(matchTypes.contains (upperStr t))

lemma rwLoopF_indexError (cols : List String) (e : Bool) (kw arg : String)
    (hkw : matchTypes.contains (upperStr kw) = true) :
    ∀ (pre : List String) (f : ℕ) (acc : List String),
      pre.all nonPred = true → pre.length + 3 ≤ f →
      rwLoopF cols e f (pre ++ [kw, "(", arg]) acc = .indexError := by
  intro pre
  induction pre with
  | nil =>
    intro f acc _ hf
    obtain ⟨f', rfl⟩ : ∃ f', f = f' + 1 := ⟨f - 1, by omega⟩
    have hA : ¬(kw = "&&" ∨ kw = "AND") := by
      rintro (rfl | rfl) <;> exact absurd hkw (by decide)
    have hB : ¬(kw = "||" ∨ kw = "OR") := by
      rintro (rfl | rfl) <;> exact absurd hkw (by decide)
    have hC : ¬(kw = "!" ∨ kw = "NOT" ∨ kw = "not") := by
      rintro (rfl | rfl | rfl) <;> exact absurd hkw (by decide)
    have hkw2 : upperStr kw ∈ matchTypes := by simpa using hkw
    simp [rwLoopF, hA, hB, hC, hkw2]
  | cons t pre ih =>
    intro f acc hall hf
    obtain ⟨f', rfl⟩ : ∃ f', f = f' + 1 := ⟨f - 1, by omega⟩
    rw [List.length_cons] at hf
    rw [List.all_cons, Bool.and_eq_true] at hall
    obtain ⟨ht, hall'⟩ := hall
    have htm : matchTypes.contains (upperStr t) = false := by
      simpa [nonPred] using ht
    by_cases hA : (t = "&&" ∨ t = "AND")
    · simp only [List.cons_append, rwLoopF, if_pos hA]
      exact ih f' _ hall' (by omega)
    · by_cases hB : (t = "||" ∨ t = "OR")
      · simp only [List.cons_append, rwLoopF, if_neg hA, if_pos hB]
        exact ih f' _ hall' (by omega)
      · by_cases hC : (t = "!" ∨ t = "NOT" ∨ t = "not")
        · simp only [List.cons_append, rwLoopF, if_neg hA, if_neg hB, if_pos hC]
          exact ih f' _ hall' (by omega)
        · simp only [List.cons_append, rwLoopF, if_neg hA, if_neg hB, if_neg hC,
            htm, Bool.false_eq_true, if_false]
          exact ih f' _ hall' (by omega)

/-- C9: when the token stream ends with a predicate keyword followed by
exactly two more tokens `(` and an argument (no closing parenthesis at the
end of the query string), the bounds check `ntokens < i + 3` passes, the
access to `tokens[i+3]` raises an uncaught `IndexError`, and the whole
query fails with that exception instead of the documented warn-and-drop
behaviour.  The preceding tokens may be anything that is not itself a
predicate keyword. -/
theorem c9_truncated_predicate (cols : List String) (e : Bool)
    (pre : List String) (kw arg q : String) (rows : List Record)
    (hpre : pre.all nonPred = true)
    (hkw : matchTypes.contains (upperStr kw) = true)
    (htok : tokenize q = pre ++ [kw, "(", arg]) :
    rwTokens cols e (pre ++ [kw, "(", arg]) = .indexError ∧
    conditionStr cols rows e q = .error .indexError := by
  have hlen : (pre ++ [kw, "(", arg]).length = pre.length + 3 := by simp
  have h1 : rwTokens cols e (pre ++ [kw, "(", arg]) = .indexError := by
    rw [rwTokens, hlen]
    exact rwLoopF_indexError cols e kw arg hkw pre (pre.length + 3) []
      hpre (le_refl _)
  refine ⟨h1, ?_⟩
  simp only [conditionStr, htok, h1]

/-- C9 witness: the truncated query `F0 > 100 AND EXIST(P1` on a table
with column `F0`. -/
theorem c9_truncated_predicate_witness :
    rwTokens ["F0"] false (["F0", ">", "100", "AND"] ++ ["EXIST", "(", "P1"]) =
      .indexError ∧
    conditionStr ["F0"] [] false "F0 > 100 AND EXIST(P1" = .error .indexError :=
  c9_truncated_predicate ["F0"] false ["F0", ">", "100", "AND"] "EXIST" "P1"
    "F0 > 100 AND EXIST(P1" [] (by decide) (by decide) (by decide)

/-! ### C10: blank lines and one-token data lines -/

/-- A raw line on which the loader's subscripting raises `IndexError`:
no tokens at all (blank or whitespace-only line), or a single token that
does not start a comment or separator line (a field name with no value). -/
def badLine (l : String) : Bool :=
  match splitWs l with
  | [] => true
  | [w] =>
    match firstChar w with
    | none => true
    | some c => !(c = '#') && !(c = '@')
  | _ => false

lemma procLine_badLine (st : PState) (l : String) (h : badLine l = true) :
    procLine st l = .error .indexError := by
  cases hs : splitWs l with
  | nil => simp [procLine, hs]
  | cons w rest =>
    cases rest with
    | nil =>
      cases hc : firstChar w with
      | none => simp [procLine, hs, hc]
      | some c =>
        have h2 : ¬(c = '#') ∧ ¬(c = '@') := by
          simpa [badLine, hs, hc] using h
        simp [procLine, hs, hc, h2.1, h2.2]
    | cons v rest2 =>
      simp [badLine, hs] at h

/-- C10: the loader is only defined on inputs whose lines all tokenize to
a comment, a separator, or a field name with at least one value token: a
blank (or whitespace-only) line, or a data line consisting of a field name
alone, makes the whole load fail with an uncaught `IndexError`, regardless
of what follows, rather than being skipped or producing a partial
record. -/
theorem c10_malformed_line (pre post : List String) (l : String) (st : PState)
    (hpre : List.foldlM procLine initState pre = .ok st)
    (hbad : badLine l = true) :
    parseCat (pre ++ l :: post) = .error .indexError := by
  have hmain : procLines (pre ++ l :: post) = .error .indexError := by
    rw [procLines, List.foldlM_append, hpre]
    show List.foldlM procLine st (l :: post) = .error .indexError
    rw [List.foldlM_cons, procLine_badLine st l hbad]
    rfl
  simp [parseCat, hmain]

/-- C10 witness: a well-formed first line followed by a blank line. -/
theorem c10_malformed_line_witness :
    parseCat (["PSRJ J1"] ++ "" :: ["F0 1"]) = .error .indexError :=
  c10_malformed_line ["PSRJ J1"] ["F0 1"] "" ⟨[("PSRJ", Value.str "J1")], [], [("PSRJ", FType.unicode)]⟩
    (by decide) (by decide)

/-! ### C4: one row per record, trailing separator -/

/-- Separator-line test: the line has tokens and the first one starts with
the `'@'` marker (the comment marker is checked first in the source, but a
token cannot start with both). -/
def sepLine (l : String) : Bool :=
  match splitWs l with
  | [] => false
  | w :: _ => firstChar w = some '@'

lemma exbind_ok {ε α β : Type} (a : α) (f : α → Except ε β) :
    (Except.ok a >>= f) = f a := rfl

lemma dataStep1_closed (st : PState) (w0 v1 : String) :
    (dataStep1 st w0 v1).closedRev = st.closedRev := by
  rw [dataStep1]
  cases pyFloat? v1 <;> rfl

lemma exbind_err {ε α β : Type} (e : ε) (f : α → Except ε β) :
    ((Except.error e : Except ε α) >>= f) = Except.error e := rfl

lemma dataStep2_closed (st1 st2 : PState) (w0 v1 v2 : String)
    (h : dataStep2 st1 w0 v1 v2 = .ok st2) :
    st2.closedRev = st1.closedRev := by
  cases hf : pyFloat? v2 with
  | none =>
    have h2 : addField st1 (w0 ++ "_REF") (Value.str v2) FType.unicode = st2 := by
      simpa [dataStep2, hf] using h
    rw [← h2]
    rfl
  | some q2 =>
    cases he : errEntry v1 v2 q2 with
    | error e => simp [dataStep2, hf, he] at h
    | ok er =>
      have h2 : addField st1 (w0 ++ "_ERR") (Value.num er) FType.float64 = st2 := by
        simpa [dataStep2, hf, he] using h
      rw [← h2]
      rfl

lemma procLine_closed (st : PState) (l : String) (st2 : PState)
    (h : procLine st l = .ok st2) :
    st2.closedRev.length =
      st.closedRev.length + (if sepLine l = true then 1 else 0) := by
  cases hs : splitWs l with
  | nil => simp [procLine, hs] at h
  | cons w args =>
    cases hfc : firstChar w with
    | none => simp [procLine, hs, hfc] at h
    | some c0 =>
      by_cases h1 : c0 = '#'
      · have hst : st = st2 := by simpa [procLine, hs, hfc, h1] using h
        subst hst
        have hsep : sepLine l = false := by
          simp [sepLine, hs, hfc, h1]
        simp [hsep]
      · by_cases h2 : c0 = '@'
        · have hst : st2 = ⟨[], st.cur :: st.closedRev, st.formats⟩ := by
            have := h
            simp [procLine, hs, hfc, h1, h2] at this
            exact this.symm
          subst hst
          have hsep : sepLine l = true := by simp [sepLine, hs, hfc, h2]
          simp [hsep]
        · have hsep : sepLine l = false := by simp [sepLine, hs, hfc, h2]
          rw [hsep]
          simp only [Bool.false_eq_true, if_false, Nat.add_zero]
          cases args with
          | nil => simp [procLine, hs, hfc, h1, h2] at h
          | cons v1 rest2 =>
            cases rest2 with
            | nil =>
              have hst : dataStep1 st w v1 = st2 := by
                simpa [procLine, hs, hfc, h1, h2] using h
              rw [← hst, dataStep1_closed]
            | cons v2 rest3 =>
              simp only [procLine, hs, hfc, h1, h2, if_neg] at h
              cases hd2 : dataStep2 (dataStep1 st w v1) w v1 v2 with
              | error e =>
                rw [hd2] at h
                exact absurd h (by simp)
              | ok stx =>
                rw [hd2] at h
                have hx := dataStep2_closed _ _ _ _ _ hd2
                cases rest3 with
                | nil =>
                  have hst : stx = st2 := by simpa using h
                  subst hst
                  rw [hx, dataStep1_closed]
                | cons v3 r4 =>
                  have hst : dataStep3 stx w v3 = st2 := by simpa using h
                  rw [← hst]
                  show stx.closedRev.length = st.closedRev.length
                  rw [hx, dataStep1_closed]

lemma procLinesFrom_closed (lines : List String) :
    ∀ st st2 : PState, List.foldlM procLine st lines = .ok st2 →
      st2.closedRev.length =
        st.closedRev.length + lines.countP (fun l => sepLine l) := by
  induction lines with
  | nil =>
    intro st st2 h
    have hst : st = st2 := by simpa [List.foldlM_nil, pure, Except.pure] using h
    subst hst
    simp
  | cons l ls ih =>
    intro st st2 h
    rw [List.foldlM_cons] at h
    cases hp : procLine st l with
    | error e =>
      rw [hp, exbind_err] at h
      exact absurd h (by simp)
    | ok st1 =>
      rw [hp, exbind_ok] at h
      have h1 := procLine_closed st l st1 hp
      have h2 := ih st1 st2 h
      rw [List.countP_cons]
      by_cases hsep : sepLine l = true
      · rw [if_pos hsep] at h1
        rw [if_pos hsep]
        omega
      · rw [if_neg hsep] at h1
        rw [if_neg hsep]
        omega

lemma procLine_sep (st1 : PState) (s : String) (hsep : sepLine s = true) :
    procLine st1 s = .ok ⟨[], st1.cur :: st1.closedRev, st1.formats⟩ := by
  cases hs : splitWs s with
  | nil => simp [sepLine, hs] at hsep
  | cons w args =>
    have hw : firstChar w = some '@' := by simpa [sepLine, hs] using hsep
    simp [procLine, hs, hw]

/-- C4 counterexample: the claim says the final-record discard never
removes a record that contains fields, and that an input whose last data
record is not followed by a separator line still yields a row for that
record.  But `del psrlist[-1]` is unconditional: on an input whose last
record `PSRJ J2` has no trailing separator, that record is silently
dropped and only one row remains. -/
theorem c4_trailing_separator_counterexample :
    parseCat ["PSRJ J1", "@", "PSRJ J2"] = .ok [[("PSRJ", Value.str "J1")]] := by
  decide

/-- C4 (amended): when the catalogue input ends with a separator line, the
assembled table has exactly one row per separator-terminated record (the
row count equals the number of separator lines), and the record discarded
by the final `del psrlist[-1]` is the empty one opened by the trailing
separator.  Without a trailing separator the last record's fields are
discarded (see the counterexample). -/
theorem c4_trailing_separator_amended (ls : List String) (s : String)
    (st : PState) (hsep : sepLine s = true)
    (h : procLines (ls ++ [s]) = .ok st) :
    st.cur = [] ∧
    st.closedRev.length = (ls ++ [s]).countP (fun l => sepLine l) ∧
    parseCat (ls ++ [s]) = .ok st.closedRev.reverse := by
  have hlen := procLinesFrom_closed (ls ++ [s]) initState st h
  have hcur : st.cur = [] := by
    rw [procLines, List.foldlM_append] at h
    cases hpre : List.foldlM procLine initState ls with
    | error e =>
      rw [hpre, exbind_err] at h
      exact absurd h (by simp)
    | ok st1 =>
      rw [hpre, exbind_ok] at h
      rw [List.foldlM_cons, procLine_sep st1 s hsep, exbind_ok,
        List.foldlM_nil] at h
      have hst : (⟨[], st1.cur :: st1.closedRev, st1.formats⟩ : PState) = st := by
        simpa [pure, Except.pure] using h
      rw [← hst]
  refine ⟨hcur, ?_, ?_⟩
  · simpa [initState] using hlen
  · simp [parseCat, h]

/-- C4 witness: the two-line input `PSRJ J1`, `@`. -/
theorem c4_trailing_separator_witness :
    (⟨[], [[("PSRJ", Value.str "J1")]], [("PSRJ", FType.unicode)]⟩ : PState).cur = [] ∧
    (⟨[], [[("PSRJ", Value.str "J1")]], [("PSRJ", FType.unicode)]⟩ : PState).closedRev.length
      = (["PSRJ J1"] ++ ["@"]).countP (fun l => sepLine l) ∧
    parseCat (["PSRJ J1"] ++ ["@"]) =
      .ok (⟨[], [[("PSRJ", Value.str "J1")]], [("PSRJ", FType.unicode)]⟩ : PState).closedRev.reverse :=
  c4_trailing_separator_amended ["PSRJ J1"] "@"
    ⟨[], [[("PSRJ", Value.str "J1")]], [("PSRJ", FType.unicode)]⟩
    (by decide) (by decide)

/-! ### C1: last-digit uncertainty decoding -/

lemma containsCh_append_self (c : Char) (l tl : List Char) :
    containsCh c (l ++ c :: tl) = true := by
  induction l with
  | nil => simp [containsCh]
  | cons x xs ih => simp [containsCh, ih]

lemma findIdxCh_append_self (c : Char) (l tl : List Char)
    (h : containsCh c l = false) :
    findIdxCh c (l ++ c :: tl) = l.length := by
  induction l with
  | nil => simp [findIdxCh]
  | cons x xs ih =>
    rw [containsCh] at h
    have h2 : ¬(x = c) ∧ containsCh c xs = false := by
      constructor
      · intro hxc
        rw [hxc] at h
        simp at h
      · cases hcc : containsCh c xs
        · rfl
        · rw [hcc] at h
          simp at h
    rw [List.cons_append]
    rw [show findIdxCh c (x :: (xs ++ c :: tl)) =
        if x = c then 0 else findIdxCh c (xs ++ c :: tl) + 1 from rfl]
    rw [if_neg h2.1, ih h2.2, List.length_cons]

lemma dpFactor_split (ip fp : String) (h : containsCh '.' ip.data = false) :
    dpFactor (ip ++ "." ++ fp) = npow10 fp.data.length := by
  have hdata : (ip ++ "." ++ fp).data = ip.data ++ '.' :: fp.data := by
    simp [String.data_append]
  rw [dpFactor, hdata, containsCh_append_self, if_pos rfl,
    findIdxCh_append_self _ _ _ h]
  congr 1
  simp

lemma scalefacOf_exp (val errTok m ex : String) (k : ℤ)
    (h1 : ¬(firstChar errTok = some '-'))
    (h2 : errTok.data.contains '.' = false)
    (hsplit : splitExpChars val = [m, ex])
    (hex : pyInt? ex = some k) :
    scalefacOf val errTok = .ok (qmul (spow10 (-k)) (dpFactor m)) := by
  have hcond : ¬(firstChar errTok = some '-' ∨ errTok.data.contains '.' = true) := by
    rintro (hc | hc)
    · exact h1 hc
    · rw [h2] at hc
      exact absurd hc (by simp)
  simp only [scalefacOf, if_neg hcond, hsplit, hex]

lemma scalefacOf_noexp (val errTok m : String)
    (h1 : ¬(firstChar errTok = some '-'))
    (h2 : errTok.data.contains '.' = false)
    (hsplit : splitExpChars val = [m]) :
    scalefacOf val errTok = .ok (dpFactor m) := by
  have hcond : ¬(firstChar errTok = some '-' ∨ errTok.data.contains '.' = true) := by
    rintro (hc | hc)
    · exact h1 hc
    · rw [h2] at hc
      exact absurd hc (by simp)
  simp only [scalefacOf, if_neg hcond, hsplit]
  rfl

/-- C1 counterexample: the claim computes the example
`value "1.23E-2", uncertainty "5"` to the absolute error `5e-7`.  The
code's own formula (and the claim's general formula) gives
`5 / (10^2 · 10^2) = 5e-4 = 1/2000`, which is not `5e-7`. -/
theorem c1_error_scale_counterexample :
    errEntry "1.23E-2" "5" (mkRat 5 1) = .ok (mkRat 1 2000) ∧
    pyFloat? "5" = some (mkRat 5 1) ∧
    (mkRat 1 2000 : ℚ) ≠ mkRat 5 10000000 := by
  decide

/-- C1 (amended): for a value token and a last-digit (non-absolute)
uncertainty token (no leading minus, no decimal point), the decoder stores
under `<field>_ERR` the value `raw_error / scale`, where the post-colon
significant part of the value splits on the exponent letters into a
mantissa `ip.fp` (and possibly an exponent `ex` with integer value `k`),
and `scale = 10^(-k) · 10^(len fp)` when the exponent is present, and
`10^(len fp)` otherwise.  In particular `"1.23456"`/`"7"` gives `0.00007`,
and `"1.23E-2"`/`"5"` gives `5e-4` (not `5e-7` as the claim's second
example says). -/
theorem c1_error_scale_amended (valTok errTok val ip fp ex : String)
    (k : ℤ) (qe q : ℚ)
    (h1 : ¬(firstChar errTok = some '-'))
    (h2 : errTok.data.contains '.' = false)
    (hval : postColon valTok = val)
    (hq : pyFloat? val = some q)
    (hip : containsCh '.' ip.data = false) :
    (splitExpChars val = [ip ++ "." ++ fp, ex] → pyInt? ex = some k →
      errEntry valTok errTok qe =
        .ok (qdiv qe (qmul (spow10 (-k)) (npow10 fp.data.length)))) ∧
    (splitExpChars val = [ip ++ "." ++ fp] →
      errEntry valTok errTok qe = .ok (qdiv qe (npow10 fp.data.length))) := by
  constructor
  · intro hsplit hex
    have hsf := scalefacOf_exp val errTok (ip ++ "." ++ fp) ex k h1 h2 hsplit hex
    rw [dpFactor_split ip fp hip] at hsf
    simp only [errEntry, hval, hq, hsf]
  · intro hsplit
    have hsf := scalefacOf_noexp val errTok (ip ++ "." ++ fp) h1 h2 hsplit
    rw [dpFactor_split ip fp hip] at hsf
    simp only [errEntry, hval, hq, hsf]

/-- C1 witness: both corrected examples, through the amended theorem. -/
theorem c1_error_scale_witness :
    errEntry "1.23E-2" "5" (mkRat 5 1) = .ok (mkRat 1 2000) ∧
    errEntry "1.23456" "7" (mkRat 7 1) = .ok (mkRat 7 100000) := by
  constructor
  · have h := (c1_error_scale_amended "1.23E-2" "5" "1.23E-2" "1" "23" "-2"
      (-2) (mkRat 5 1) (mkRat 123 10000) (by decide) (by decide) (by decide)
      (by decide) (by decide)).1 (by decide) (by decide)
    exact h.trans (by decide)
  · have h := (c1_error_scale_amended "1.23456" "7" "1.23456" "1" "23456" ""
      0 (mkRat 7 1) (mkRat 123456 100000) (by decide) (by decide) (by decide)
      (by decide) (by decide)).2 (by decide)
    exact h.trans (by decide)

/-! ### C6: coordinate enrichment failure mode -/

/-- Whether an `Except` value is a success. -/
def exOk {ε α : Type} : Except ε α → Bool
  | .ok _ => true
  | .error _ => false

lemma aliasSteps_getA (r1 : Record) (k : String)
    (h1 : ¬("JNAME" = k)) (h2 : ¬("NAME" = k)) (h3 : ¬("BNAME" = k)) :
    getA (aliasSteps r1).1 k = getA r1 k := by
  rw [aliasSteps]
  cases hj : getA r1 "PSRJ" with
  | none =>
    cases hb : getA r1 "PSRB" with
    | none => simp only [hb]
    | some v =>
      simp only [hb]
      split_ifs with hn <;> simp [getA_setA, h1, h2, h3]
  | some v =>
    simp only
    cases hb : getA (setA (setA r1 "JNAME" v) "NAME" v) "PSRB" with
    | none =>
      simp only [hb]
      simp [getA_setA, h1, h2, h3]
    | some w =>
      simp only [hb]
      split_ifs with hn <;> simp [getA_setA, h1, h2, h3]

/-- The per-row success property for the coordinate enrichment: the record
enriches without error and carries the converted `RAJD`/`DECJD` values. -/
def enrichSets (r : Record) (q1 q2 : ℚ) : Prop :=
  match enrichRec r with
  | .ok (r2, _, _, _) =>
    getA r2 "RAJD" = some (.num q1) ∧ getA r2 "DECJD" = some (.num q2)
  | .error _ => False

/-- C6 counterexample: the claim says a malformed sexagesimal pair fails
silently to null for that row only and the load never aborts; but the
source wraps the conversion in no handler, so the load aborts with the
conversion error. -/
theorem c6_radec_counterexample :
    get_catalogue ["PSRJ J1", "RAJ xx:yy", "DECJ 10:00:00", "@"] =
      .error .valueError := by
  decide

/-- C6 (amended): when both `RAJ` and `DECJ` are present, the enricher
converts each row's pair into the decimal-degree columns `RAJD`/`DECJD`;
but there is no per-row fallback: a row whose pair does not convert makes
the enrichment loop — and with it the whole catalogue load — abort with
the conversion error. -/
theorem c6_radec_amended :
    (∀ (r : Record) (ra dec : Value) (q1 q2 : ℚ),
       getA r "RAJ" = some ra → getA r "DECJ" = some dec →
       raToDeg ra = some q1 → decToDeg dec = some q2 →
       enrichSets r q1 q2) ∧
    (∀ (pre : List Record) (r : Record) (post : List Record),
       (∀ s ∈ pre, exOk (enrichRec s) = true) →
       (getA r "RAJ").isSome = true → (getA r "DECJ").isSome = true →
       (raToDeg ((getA r "RAJ").getD .null) = none ∨
         decToDeg ((getA r "DECJ").getD .null) = none) →
       enrichAll (pre ++ r :: post) = .error .valueError) := by
  constructor
  · intro r ra dec q1 q2 hra hdec hq1 hq2
    have hcond : ((getA r "RAJ").isSome && (getA r "DECJ").isSome) = true := by
      rw [hra, hdec]
      rfl
    have hrec : enrichRec r =
        .ok ((aliasSteps (setA (setA r "RAJD" (.num q1)) "DECJD" (.num q2))).1,
          true,
          (aliasSteps (setA (setA r "RAJD" (.num q1)) "DECJD" (.num q2))).2.1,
          (aliasSteps (setA (setA r "RAJD" (.num q1)) "DECJD" (.num q2))).2.2) := by
      simp only [enrichRec, hcond, if_true, hra, hdec, Option.getD_some, hq1, hq2]
      rfl
    rw [enrichSets, hrec]
    have hd1 : ¬(("DECJD" : String) = "RAJD") := by decide
    have hd2 : ¬(("JNAME" : String) = "RAJD") := by decide
    have hd3 : ¬(("NAME" : String) = "RAJD") := by decide
    have hd4 : ¬(("BNAME" : String) = "RAJD") := by decide
    have hd5 : ¬(("JNAME" : String) = "DECJD") := by decide
    have hd6 : ¬(("NAME" : String) = "DECJD") := by decide
    have hd7 : ¬(("BNAME" : String) = "DECJD") := by decide
    constructor
    · rw [aliasSteps_getA _ _ hd2 hd3 hd4]
      simp [getA_setA, hd1]
    · rw [aliasSteps_getA _ _ hd5 hd6 hd7]
      simp [getA_setA]
  · intro pre r post hpre hra hdec hbad
    induction pre with
    | nil =>
      have hcond : ((getA r "RAJ").isSome && (getA r "DECJ").isSome) = true := by
        rw [hra, hdec]
        rfl
      have hrec : enrichRec r = .error .valueError := by
        rcases hbad with hb | hb
        · cases hd : decToDeg ((getA r "DECJ").getD .null) <;>
            simp [enrichRec, hcond, hb, hd]
        · cases hd : raToDeg ((getA r "RAJ").getD .null) <;>
            simp [enrichRec, hcond, hb, hd]
      simp [enrichAll, hrec]
    | cons s pre ih =>
      have hs : exOk (enrichRec s) = true := hpre s (by simp)
      have hpre2 : ∀ x ∈ pre, exOk (enrichRec x) = true := by
        intro x hx
        exact hpre x (by simp [hx])
      cases hrs : enrichRec s with
      | error e =>
        rw [hrs] at hs
        exact absurd hs (by simp [exOk])
      | ok out =>
        obtain ⟨r2, a, b, c⟩ := out
        have hrec := ih hpre2
        rw [List.cons_append]
        simp [enrichAll, hrs, hrec]

/-- C6 witness: a well-formed pair converts to 180 and -30 degrees; a
record with a malformed `RAJ` aborts the enrichment loop. -/
theorem c6_radec_witness :
    enrichSets [("RAJ", Value.str "12:00:00"), ("DECJ", Value.str "-30:00:00")]
      (mkRat 180 1) (mkRat (-30) 1) ∧
    enrichAll ([] ++ [("RAJ", Value.str "xx"), ("DECJ", Value.str "10:00:00")] :: []) =
      .error .valueError := by
  constructor
  · exact c6_radec_amended.1 _ (Value.str "12:00:00") (Value.str "-30:00:00")
      (mkRat 180 1) (mkRat (-30) 1) (by decide) (by decide) (by decide) (by decide)
  · exact c6_radec_amended.2 [] _ []
      (by intro s hs; exact absurd hs (List.not_mem_nil s))
      (by decide) (by decide) (Or.inl (by decide))

/-! ### C5: every column present in every row -/

/-- Invariant of the line loop: every key of the current record and of
every closed record is registered in `formats`. -/
def StInv (st : PState) : Prop :=
  (∀ k, hasA st.cur k = true → hasA st.formats k = true) ∧
  (∀ r ∈ st.closedRev, ∀ k, hasA r k = true → hasA st.formats k = true)

lemma StInv_init : StInv initState := by
  constructor
  · intro k hk
    simp [hasA, getA, initState] at hk
  · intro r hr
    simp [initState] at hr

lemma StInv_addField (st : PState) (k0 : String) (v : Value) (t : FType)
    (h : StInv st) : StInv (addField st k0 v t) := by
  constructor
  · intro k hk
    rw [show (addField st k0 v t).cur = setA st.cur k0 v from rfl] at hk
    rw [show (addField st k0 v t).formats = addFmt st.formats k0 t from rfl]
    rw [hasA_setA] at hk
    rw [hasA_addFmt]
    rcases bor_true hk with hk2 | hk2
    · rw [hk2, Bool.or_true]
    · rw [h.1 k hk2, Bool.true_or]
  · intro r hr k hk
    exact hasA_addFmt_mono _ _ _ _ (h.2 r hr k hk)

lemma StInv_dataStep1 (st : PState) (w0 v1 : String) (h : StInv st) :
    StInv (dataStep1 st w0 v1) := by
  unfold dataStep1
  cases pyFloat? v1
  · exact StInv_addField _ _ _ _ h
  · exact StInv_addField _ _ _ _ h

lemma StInv_dataStep2 (st1 st2 : PState) (w0 v1 v2 : String) (h : StInv st1)
    (hok : dataStep2 st1 w0 v1 v2 = .ok st2) : StInv st2 := by
  cases hf : pyFloat? v2 with
  | none =>
    have h2 : addField st1 (w0 ++ "_REF") (Value.str v2) FType.unicode = st2 := by
      simpa [dataStep2, hf] using hok
    rw [← h2]
    exact StInv_addField _ _ _ _ h
  | some q2 =>
    cases he : errEntry v1 v2 q2 with
    | error e => simp [dataStep2, hf, he] at hok
    | ok er =>
      have h2 : addField st1 (w0 ++ "_ERR") (Value.num er) FType.float64 = st2 := by
        simpa [dataStep2, hf, he] using hok
      rw [← h2]
      exact StInv_addField _ _ _ _ h

lemma StInv_procLine (st : PState) (l : String) (st2 : PState)
    (hinv : StInv st) (h : procLine st l = .ok st2) : StInv st2 := by
  cases hs : splitWs l with
  | nil => simp [procLine, hs] at h
  | cons w args =>
    cases hfc : firstChar w with
    | none => simp [procLine, hs, hfc] at h
    | some c0 =>
      by_cases h1 : c0 = '#'
      · have hst : st = st2 := by simpa [procLine, hs, hfc, h1] using h
        rw [← hst]
        exact hinv
      · by_cases h2 : c0 = '@'
        · have hst : st2 = ⟨[], st.cur :: st.closedRev, st.formats⟩ := by
            have h3 := h
            simp [procLine, hs, hfc, h1, h2] at h3
            exact h3.symm
          subst hst
          constructor
          · intro k hk
            simp [hasA, getA] at hk
          · intro r hr k hk
            rcases List.mem_cons.mp hr with hr2 | hr2
            · rw [hr2] at hk
              exact hinv.1 k hk
            · exact hinv.2 r hr2 k hk
        · cases args with
          | nil => simp [procLine, hs, hfc, h1, h2] at h
          | cons v1 rest2 =>
            cases rest2 with
            | nil =>
              have hst : dataStep1 st w v1 = st2 := by
                simpa [procLine, hs, hfc, h1, h2] using h
              rw [← hst]
              exact StInv_dataStep1 _ _ _ hinv
            | cons v2 rest3 =>
              simp only [procLine, hs, hfc, h1, h2, if_neg] at h
              cases hd2 : dataStep2 (dataStep1 st w v1) w v1 v2 with
              | error e =>
                rw [hd2] at h
                exact absurd h (by simp)
              | ok stx =>
                rw [hd2] at h
                have hx := StInv_dataStep2 (dataStep1 st w v1) stx w v1 v2
                  (StInv_dataStep1 st w v1 hinv) hd2
                cases rest3 with
                | nil =>
                  have hst : stx = st2 := by simpa using h
                  rw [← hst]
                  exact hx
                | cons v3 r4 =>
                  have hst : dataStep3 stx w v3 = st2 := by simpa using h
                  rw [← hst]
                  exact StInv_addField _ _ _ _ hx

lemma StInv_procLines (lines : List String) :
    ∀ st st2 : PState, StInv st →
      List.foldlM procLine st lines = .ok st2 → StInv st2 := by
  induction lines with
  | nil =>
    intro st st2 hinv h
    have hst : st = st2 := by simpa [List.foldlM_nil, pure, Except.pure] using h
    rw [← hst]
    exact hinv
  | cons l ls ih =>
    intro st st2 hinv h
    rw [List.foldlM_cons] at h
    cases hp : procLine st l with
    | error e =>
      rw [hp, exbind_err] at h
      exact absurd h (by simp)
    | ok st1 =>
      rw [hp, exbind_ok] at h
      exact ih st1 st2 (StInv_procLine st l st1 hinv hp) h

lemma hasA_setA_cases {α : Type} (r : List (String × α)) (k0 k : String)
    (v : α) (h : hasA (setA r k0 v) k = true) : k = k0 ∨ hasA r k = true := by
  rw [hasA_setA] at h
  rcases bor_true h with h2 | h2
  · exact Or.inl (of_decide_eq_true h2).symm
  · exact Or.inr h2

lemma aliasSteps_keys (r1 : Record) (k : String)
    (hk : hasA (aliasSteps r1).1 k = true) :
    hasA r1 k = true ∨
    ((aliasSteps r1).2.1 = true ∧ (k = "JNAME" ∨ k = "NAME")) ∨
    ((aliasSteps r1).2.2 = true ∧ (k = "BNAME" ∨ k = "NAME")) := by
  simp only [aliasSteps] at hk ⊢
  cases hj : getA r1 "PSRJ" with
  | none =>
    simp only [hj] at hk ⊢
    cases hb : getA r1 "PSRB" with
    | none =>
      simp only [hb] at hk ⊢
      exact Or.inl hk
    | some v =>
      simp only [hb] at hk ⊢
      split_ifs at hk ⊢ with hn
      · rcases hasA_setA_cases _ _ _ _ hk with h4 | h4
        · exact Or.inr (Or.inr ⟨by trivial, Or.inl h4⟩)
        · exact Or.inl h4
      · rcases hasA_setA_cases _ _ _ _ hk with h4 | h4
        · exact Or.inr (Or.inr ⟨by trivial, Or.inr h4⟩)
        · rcases hasA_setA_cases _ _ _ _ h4 with h5 | h5
          · exact Or.inr (Or.inr ⟨by trivial, Or.inl h5⟩)
          · exact Or.inl h5
  | some v =>
    simp only [hj] at hk ⊢
    cases hb : getA (setA (setA r1 "JNAME" v) "NAME" v) "PSRB" with
    | none =>
      simp only [hb] at hk ⊢
      rcases hasA_setA_cases _ _ _ _ hk with h4 | h4
      · exact Or.inr (Or.inl ⟨by trivial, Or.inr h4⟩)
      · rcases hasA_setA_cases _ _ _ _ h4 with h5 | h5
        · exact Or.inr (Or.inl ⟨by trivial, Or.inl h5⟩)
        · exact Or.inl h5
    | some w =>
      simp only [hb] at hk ⊢
      split_ifs at hk ⊢ with hn
      · rcases hasA_setA_cases _ _ _ _ hk with h4 | h4
        · exact Or.inr (Or.inr ⟨by trivial, Or.inl h4⟩)
        · rcases hasA_setA_cases _ _ _ _ h4 with h5 | h5
          · exact Or.inr (Or.inl ⟨by trivial, Or.inr h5⟩)
          · rcases hasA_setA_cases _ _ _ _ h5 with h6 | h6
            · exact Or.inr (Or.inl ⟨by trivial, Or.inl h6⟩)
            · exact Or.inl h6
      · rcases hasA_setA_cases _ _ _ _ hk with h4 | h4
        · exact Or.inr (Or.inr ⟨by trivial, Or.inr h4⟩)
        · rcases hasA_setA_cases _ _ _ _ h4 with h5 | h5
          · exact Or.inr (Or.inr ⟨by trivial, Or.inl h5⟩)
          · rcases hasA_setA_cases _ _ _ _ h5 with h6 | h6
            · exact Or.inr (Or.inl ⟨by trivial, Or.inr h6⟩)
            · rcases hasA_setA_cases _ _ _ _ h6 with h7 | h7
              · exact Or.inr (Or.inl ⟨by trivial, Or.inl h7⟩)
              · exact Or.inl h7

lemma enrichRec_keys (r r2 : Record) (a b c : Bool)
    (h : enrichRec r = .ok (r2, a, b, c)) (k : String)
    (hk : hasA r2 k = true) :
    hasA r k = true ∨ (a = true ∧ (k = "RAJD" ∨ k = "DECJD")) ∨
    (b = true ∧ (k = "JNAME" ∨ k = "NAME")) ∨
    (c = true ∧ (k = "BNAME" ∨ k = "NAME")) := by
  by_cases hcond : ((getA r "RAJ").isSome && (getA r "DECJ").isSome) = true
  · cases hra : raToDeg ((getA r "RAJ").getD Value.null) with
    | none =>
      cases hdec : decToDeg ((getA r "DECJ").getD Value.null) <;>
        simp [enrichRec, hcond, hra, hdec] at h
    | some q1 =>
      cases hdec : decToDeg ((getA r "DECJ").getD Value.null) with
      | none => simp [enrichRec, hcond, hra, hdec] at h
      | some q2 =>
        have h2 := h
        simp only [enrichRec, hcond, if_true, hra, hdec] at h2
        have h3 := Except.ok.inj h2
        rw [Prod.mk.injEq, Prod.mk.injEq, Prod.mk.injEq] at h3
        obtain ⟨hr2, ha, hb, hc⟩ := h3
        rw [← hr2] at hk
        rcases aliasSteps_keys _ k hk with h4 | ⟨hbf, h4⟩ | ⟨hcf, h4⟩
        · rcases hasA_setA_cases _ _ _ _ h4 with h5 | h5
          · exact Or.inr (Or.inl ⟨ha.symm, Or.inr h5⟩)
          · rcases hasA_setA_cases _ _ _ _ h5 with h6 | h6
            · exact Or.inr (Or.inl ⟨ha.symm, Or.inl h6⟩)
            · exact Or.inl h6
        · exact Or.inr (Or.inr (Or.inl ⟨hb ▸ hbf, h4⟩))
        · exact Or.inr (Or.inr (Or.inr ⟨hc ▸ hcf, h4⟩))
  · have h2 := h
    simp only [enrichRec, if_neg hcond] at h2
    have h3 := Except.ok.inj h2
    rw [Prod.mk.injEq, Prod.mk.injEq, Prod.mk.injEq] at h3
    obtain ⟨hr2, ha, hb, hc⟩ := h3
    rw [← hr2] at hk
    rcases aliasSteps_keys _ k hk with h4 | ⟨hbf, h4⟩ | ⟨hcf, h4⟩
    · exact Or.inl h4
    · exact Or.inr (Or.inr (Or.inl ⟨hb ▸ hbf, h4⟩))
    · exact Or.inr (Or.inr (Or.inr ⟨hc ▸ hcf, h4⟩))

lemma enrichAll_keys : ∀ (rs rs2 : List Record) (A B C : Bool),
    enrichAll rs = .ok (rs2, A, B, C) →
    ∀ r2 ∈ rs2, ∀ k, hasA r2 k = true →
      (∃ r ∈ rs, hasA r k = true) ∨ (A = true ∧ (k = "RAJD" ∨ k = "DECJD")) ∨
      (B = true ∧ (k = "JNAME" ∨ k = "NAME")) ∨
      (C = true ∧ (k = "BNAME" ∨ k = "NAME")) := by
  intro rs
  induction rs with
  | nil =>
    intro rs2 A B C h r2 hr2 k hk
    have h2 : rs2 = [] := by
      have h3 := h
      simp only [enrichAll] at h3
      have h4 := Except.ok.inj h3
      rw [Prod.mk.injEq] at h4
      exact h4.1.symm
    rw [h2] at hr2
    exact absurd hr2 (List.not_mem_nil r2)
  | cons r rs ih =>
    intro rs2 A B C h r2 hr2 k hk
    cases hr : enrichRec r with
    | error e => simp [enrichAll, hr] at h
    | ok out =>
      obtain ⟨r1, a, b, c⟩ := out
      cases hall : enrichAll rs with
      | error e => simp [enrichAll, hr, hall] at h
      | ok outs =>
        obtain ⟨rs1, a1, b1, c1⟩ := outs
        have h2 := h
        simp only [enrichAll, hr, hall] at h2
        have h3 := Except.ok.inj h2
        rw [Prod.mk.injEq, Prod.mk.injEq, Prod.mk.injEq] at h3
        obtain ⟨hrs2, hA, hB, hC⟩ := h3
        rw [← hrs2] at hr2
        rcases List.mem_cons.mp hr2 with hh | hmem
        · rw [hh] at hk
          rcases enrichRec_keys r r1 a b c hr k hk with
            h4 | ⟨hf, h4⟩ | ⟨hf, h4⟩ | ⟨hf, h4⟩
          · exact Or.inl ⟨r, by simp, h4⟩
          · exact Or.inr (Or.inl ⟨by rw [← hA, hf, Bool.true_or], h4⟩)
          · exact Or.inr (Or.inr (Or.inl ⟨by rw [← hB, hf, Bool.true_or], h4⟩))
          · exact Or.inr (Or.inr (Or.inr ⟨by rw [← hC, hf, Bool.true_or], h4⟩))
        · rcases ih rs1 a1 b1 c1 hall r2 hmem k hk with
            ⟨rr, hrr, h4⟩ | ⟨hf, h4⟩ | ⟨hf, h4⟩ | ⟨hf, h4⟩
          · exact Or.inl ⟨rr, by simp [hrr], h4⟩
          · exact Or.inr (Or.inl ⟨by rw [← hA, hf, Bool.or_true], h4⟩)
          · exact Or.inr (Or.inr (Or.inl ⟨by rw [← hB, hf, Bool.or_true], h4⟩))
          · exact Or.inr (Or.inr (Or.inr ⟨by rw [← hC, hf, Bool.or_true], h4⟩))

lemma enrichFormats_mono (f : Formats) (A B C : Bool) (k : String)
    (h : hasA f k = true) : hasA (enrichFormats f A B C) k = true := by
  simp only [enrichFormats]
  split_ifs <;> (repeat' apply hasA_setA_mono) <;> exact h

lemma enrichFormats_flags (f : Formats) (A B C : Bool) :
    (A = true → hasA (enrichFormats f A B C) "RAJD" = true ∧
      hasA (enrichFormats f A B C) "DECJD" = true) ∧
    (B = true → hasA (enrichFormats f A B C) "JNAME" = true ∧
      hasA (enrichFormats f A B C) "NAME" = true) ∧
    (C = true → hasA (enrichFormats f A B C) "BNAME" = true ∧
      hasA (enrichFormats f A B C) "NAME" = true) := by
  have e1 : decide (("RAJD" : String) = "RAJD") = true := by decide
  have e2 : decide (("DECJD" : String) = "DECJD") = true := by decide
  have e3 : decide (("JNAME" : String) = "JNAME") = true := by decide
  have e4 : decide (("BNAME" : String) = "BNAME") = true := by decide
  have e5 : decide (("NAME" : String) = "NAME") = true := by decide
  cases A <;> cases B <;> cases C <;>
    simp [enrichFormats, hasA_setA, e1, e2, e3, e4, e5]

lemma hasA_fillRec (f : Formats) (r : Record) (k : String) :
    hasA (fillRec f r) k = (hasA r k || hasA f k) := by
  induction f generalizing r with
  | nil => simp [fillRec, hasA, getA]
  | cons kt f2 ih =>
    obtain ⟨k0, t0⟩ := kt
    rw [show fillRec ((k0, t0) :: f2) r =
        fillRec f2 (if (getA r k0).isSome then r else r ++ [(k0, Value.null)])
      from rfl]
    rw [ih]
    by_cases hp : (getA r k0).isSome
    · rw [if_pos hp]
      by_cases hk0 : k0 = k
      · subst hk0
        have hrk : hasA r k0 = true := hp
        simp [hasA, getA, hrk]
        exact Or.inl hp
      · simp [hasA, getA, hk0]
    · rw [if_neg hp]
      rw [hasA_append]
      by_cases hk0 : k0 = k
      · subst hk0
        simp [hasA, getA]
      · simp [hasA, getA, hk0]

/-- C5: in the output of the whole load pipeline, every column name that
appears in any record is present in every row — after the fill loop every
row carries every registered column (with null entries for fields a record
lacked), and every key that ever enters a record is registered. -/
theorem c5_column_registry (lines : List String) (recs : List Record)
    (fmts : Formats) (h : get_catalogue lines = .ok (recs, fmts)) :
    ∀ r ∈ recs, ∀ r2 ∈ recs, ∀ k, hasA r2 k = true → hasA r k = true := by
  cases hp : procLines lines with
  | error e => simp [get_catalogue, hp] at h
  | ok st =>
    cases he : enrichAll st.closedRev.reverse with
    | error e => simp [get_catalogue, hp, he] at h
    | ok out =>
      obtain ⟨recs0, A, B, C⟩ := out
      have h2 := h
      simp only [get_catalogue, hp, he] at h2
      have h3 := Except.ok.inj h2
      rw [Prod.mk.injEq] at h3
      obtain ⟨hrecs, hfmts⟩ := h3
      have hinv : StInv st := StInv_procLines lines initState st StInv_init hp
      intro r hr r2 hr2 k hk
      rw [← hrecs] at hr hr2
      rw [List.mem_map] at hr hr2
      obtain ⟨r0, hr0, hre⟩ := hr
      obtain ⟨r20, hr20, hre2⟩ := hr2
      rw [← hre2] at hk
      rw [← hre]
      rw [hasA_fillRec] at hk ⊢
      have key : hasA (enrichFormats st.formats A B C) k = true := by
        rcases bor_true hk with hk2 | hk2
        · rcases enrichAll_keys st.closedRev.reverse recs0 A B C he r20 hr20 k hk2 with
            ⟨rr, hrr, h4⟩ | ⟨hA, h4⟩ | ⟨hB, h4⟩ | ⟨hC, h4⟩
          · exact enrichFormats_mono _ _ _ _ _
              (hinv.2 rr (List.mem_reverse.mp hrr) k h4)
          · rcases h4 with h5 | h5 <;> rw [h5]
            · exact ((enrichFormats_flags st.formats A B C).1 hA).1
            · exact ((enrichFormats_flags st.formats A B C).1 hA).2
          · rcases h4 with h5 | h5 <;> rw [h5]
            · exact ((enrichFormats_flags st.formats A B C).2.1 hB).1
            · exact ((enrichFormats_flags st.formats A B C).2.1 hB).2
          · rcases h4 with h5 | h5 <;> rw [h5]
            · exact ((enrichFormats_flags st.formats A B C).2.2 hC).1
            · exact ((enrichFormats_flags st.formats A B C).2.2 hC).2
        · exact hk2
      rw [key, Bool.or_true]

/-- C5 witness: on a two-record catalogue where only the first record has
`F0`, the second row still carries the `F0_ERR` column (as null). -/
theorem c5_column_registry_witness :
    hasA [("PSRJ", Value.str "J2"), ("JNAME", Value.str "J2"),
      ("NAME", Value.str "J2"), ("F0", Value.null), ("F0_ERR", Value.null)]
      "F0_ERR" = true :=
  c5_column_registry ["PSRJ J1", "F0 100.5 2", "@", "PSRJ J2", "@"]
    [[("PSRJ", Value.str "J1"), ("F0", Value.num (mkRat 201 2)),
      ("F0_ERR", Value.num (mkRat 1 5)), ("JNAME", Value.str "J1"),
      ("NAME", Value.str "J1")],
     [("PSRJ", Value.str "J2"), ("JNAME", Value.str "J2"),
      ("NAME", Value.str "J2"), ("F0", Value.null), ("F0_ERR", Value.null)]]
    [("PSRJ", FType.unicode), ("F0", FType.float64), ("F0_ERR", FType.float64),
     ("JNAME", FType.unicode), ("NAME", FType.unicode)]
    (by decide)
    [("PSRJ", Value.str "J2"), ("JNAME", Value.str "J2"),
      ("NAME", Value.str "J2"), ("F0", Value.null), ("F0_ERR", Value.null)]
    (by decide)
    [("PSRJ", Value.str "J1"), ("F0", Value.num (mkRat 201 2)),
      ("F0_ERR", Value.num (mkRat 1 5)), ("JNAME", Value.str "J1"),
      ("NAME", Value.str "J1")]
    (by decide) "F0_ERR" (by decide)

end Psrqpy
